import Mathlib

/-!
Shallow embedding of the download engine in src/downloader.ts (class
Downloader) and theorems checking the specification claims against it.

Modelling conventions:
* JS numbers holding byte positions are modelled as Int wherever the source
  expression can become negative (start + chunkSize - 1 with chunkSize = 0),
  and as Nat where they only count sizes.
* The network, the filesystem and the WHATWG URL parser are platform code,
  modelled as oracles (function parameters); everything taken from the body
  of downloader.ts is translated literally.
* Asynchronous runs are sequentialized; the abort flag is frozen to the value
  the signal has at the check sites of the modelled path.
-/

set_option maxRecDepth 8000

namespace INDM

/-- Character class of the regex [^a-zA-Z0-9._-] used by sanitizeFileName
(downloader.ts line 101): true on the characters that are kept. -/
def isAllowedChar (c : Char) : Bool :=
  ('a' ≤ c && c ≤ 'z') || ('A' ≤ c && c ≤ 'Z') || ('0' ≤ c && c ≤ '9') ||
    c == '.' || c == '_' || c == '-'

/-- Pointwise effect of name.replace(/[^a-zA-Z0-9._-]/g, underscore). -/
def replChar (c : Char) : Char := if isAllowedChar c then c else '_'

/-- The suffix of l starting at its last dot, when l contains a dot. -/
def lastDotSuffix : List Char → Option (List Char)
  | [] => none
  | c :: rest =>
      match lastDotSuffix rest with
      | some s => some s
      | none => if c = '.' then some (c :: rest) else none

/-- node path.extname restricted to slash-free names (sanitizeFileName applies
it after every slash has been replaced by an underscore): the suffix starting
at the last dot, except that it is empty when there is no dot, when the only
dot is the leading character, or on the literal name dot-dot. -/
def extname (l : List Char) : List Char :=
  match lastDotSuffix l with
  | none => []
  | some s => if s.length = l.length then [] else if l = ['.', '.'] then [] else s

/-- node path.basename(name, extname name) for slash-free names: the part of
the name in front of its extension. -/
def basenameExt (l : List Char) : List Char :=
  l.take (l.length - (extname l).length)

/-- sanitizeFileName (downloader.ts lines 100-108) on the character list of
the name: replace every disallowed character by an underscore; when the result
is longer than 100 characters keep base.substring(0, 100 - ext.length) ++ ext.
Like the JS substring with a negative bound, Nat subtraction clamps
100 - ext.length at zero. -/
def sanitizeChars (l : List Char) : List Char :=
  let r := l.map replChar
  if 100 < r.length then (basenameExt r).take (100 - (extname r).length) ++ extname r
  else r

def sanitizeFileName (s : String) : String := String.mk (sanitizeChars s.data)

/-- node path.basename(p) without a suffix argument, posix flavour: drop
trailing slashes, then keep the final slash-free component. -/
def basenameList (l : List Char) : List Char :=
  ((l.reverse.dropWhile fun c => c == '/').takeWhile fun c => c != '/').reverse

/-- getFileNameFromUrl (downloader.ts lines 89-98). new URL(url) is platform
code, modelled by the oracle parse, which yields the pathname or none when the
constructor throws; the catch branch returns the literal fallback. -/
def getFileNameFromUrl (parse : String → Option String) (url : String) : String :=
  match parse url with
  | none => "downloaded_file"
  | some pathname =>
      let n := basenameList pathname.data
      let n2 := if n = [] ∨ n = ['/'] then "downloaded_file".data else n
      String.mk (sanitizeChars n2)

/-- Constructor line 61: this.fileName = options.fileName ||
this.getFileNameFromUrl(url); the empty string is falsy in JS. -/
def ctorFileName (optName : Option String) (urlDerived : String) : String :=
  match optName with
  | some s => if s = "" then urlDerived else s
  | none => urlDerived

/-- Head-request metadata as consumed by start(): the capture group of
/filename="?([^"]+)"?/ applied to the content-disposition header (modelled as
the already-captured group, none when the header is absent or does not match)
and the numeric content-length header (none when absent or empty). -/
structure ProbeResponse where
  cdFilename : Option String
  contentLength : Option Nat
deriving DecidableEq

/-- File-name refinement inside start() (lines 127-134): a matched
Content-Disposition filename always overwrites the current name, whatever its
origin. -/
def probeFileName (fileName : String) (r : ProbeResponse) : String :=
  match r.cdFilename with
  | some m => sanitizeFileName m
  | none => fileName

/-- updatePaths (lines 83-87); path.join is modelled as slash concatenation. -/
def finalFilePath (outputDir fileName : String) : String :=
  outputDir ++ "/" ++ fileName

def tempFilePath (outputDir fileName : String) : String :=
  finalFilePath outputDir fileName ++ ".part"

/-- const chunkSize = Math.floor(this.totalBytes / this.numConnections)
(line 212). -/
def chunkSize (T N : Nat) : Nat := T / N

/-- const start = i * chunkSize (line 216). -/
def segStart (T N i : Nat) : Int := (i : Int) * (chunkSize T N : Int)

/-- const end = i === N-1 ? totalBytes - 1 : start + chunkSize - 1 (line 217);
Int because this is -1 on the empty leading segments of a file smaller than
the connection count. -/
def segEnd (T N i : Nat) : Int :=
  if i = N - 1 then (T : Int) - 1 else segStart T N i + (chunkSize T N : Int) - 1

/-- Segment i is dispatched on a fresh start (downloadedBytesPerChunk[i] = 0):
the loop body issues a worker exactly when currentStart <= end
(lines 215-224). -/
def dispatched (T N i : Nat) : Prop := i < N ∧ segStart T N i ≤ segEnd T N i

instance (T N i : Nat) : Decidable (dispatched T N i) :=
  inferInstanceAs (Decidable (i < N ∧ segStart T N i ≤ segEnd T N i))

/-- Observable actions of the engine, used to state trace properties. -/
inductive Act where
  | headReq
  | emitStart (totalBytes : Nat) (fileName : String)
  | mkdirs
  | save
  | openTemp
  | rangeReq (s e : Int)
  | sleep (attempt : Nat)
  | rename
  | emitComplete (p : String)
  | emitError (m : String)
  | emitPaused
deriving DecidableEq

/-- const maxRetries = 10 (line 233). -/
def maxRetries : Nat := 10

/-- What the origin does on one ranged attempt for one segment: how many body
bytes arrive (each one written and added to the per-segment counter, lines
266-273) and, when err is some m, the attempt then fails with message m;
err = none is a clean end of stream. -/
structure NetOutcome where
  bytes : Nat
  err : Option String

/-- downloadChunkWithRetry (lines 230-248) together with the body loop of
downloadChunk (lines 250-275) on the non-cancelled path: attempt a issues
Range bytes=s-e, adds the delivered bytes to the per-segment counter d, and on
failure with a <= maxRetries sleeps and recurses with THE SAME s and e
(line 243 passes start and end unchanged, not start + downloaded). The fuel
argument only bounds the recursion; maxRetries + 1 covers every reachable
attempt 1..11. Result: (action trace, final counter, propagated error). -/
def retryGo (net : Nat → NetOutcome) (s e : Int) (d : Int) (a fuel : Nat) :
    List Act × Int × Option String :=
  match fuel with
  | 0 => ([], d, some "out of fuel")
  | fuel + 1 =>
      let o := net a
      let d2 := d + (o.bytes : Int)
      match o.err with
      | none => ([Act.rangeReq s e], d2, none)
      | some m =>
          if a ≤ maxRetries then
            let r := retryGo net s e d2 (a + 1) fuel
            (Act.rangeReq s e :: Act.sleep a :: r.1, r.2.1, r.2.2)
          else ([Act.rangeReq s e], d2, some m)

/-- Entry point of the retry supervisor: attempt = 1 (line 230 default). -/
def downloadChunkWithRetry (net : Nat → NetOutcome) (s e : Int) (d : Int) :
    List Act × Int × Option String :=
  retryGo net s e d 1 (maxRetries + 1)

/-- Number of ranged network requests recorded in a trace. -/
def reqCount : List Act → Nat
  | [] => 0
  | Act.rangeReq _ _ :: rest => reqCount rest + 1
  | _ :: rest => reqCount rest

/-- downloadParallel (lines 211-228), sequentialized in segment order; dl i is
this.downloadedBytesPerChunk[i] || 0. Returns the concatenated worker traces
and the first escalated worker failure, if any (the Promise.all rejection). -/
def downloadParallel (T N : Nat) (dl : Nat → Int) (net : Nat → Nat → NetOutcome) :
    List Act × Option String :=
  (List.range N).foldl
    (fun acc i =>
      let s := segStart T N i + dl i
      let e := segEnd T N i
      if s ≤ e then
        let r := downloadChunkWithRetry (net i) s e (dl i)
        (acc.1 ++ r.1, match acc.2 with | some m => some m | none => r.2.2)
      else acc)
    ([], none)

/-- pause() (lines 204-209): set the flags, abort the signal, saveState, and
emit paused right at the entry point, before any worker has been awaited. -/
def pauseActs : List Act := [Act.save, Act.emitPaused]

/-- Tail of start() after the workers return (lines 163-186): outcome = none
means downloadParallel resolved, outcome = some m that it threw with message
m; the flags carry the values observed at those checks. -/
def startFinishActs (outcome : Option String) (isPaused aborted : Bool)
    (finalPath : String) : List Act :=
  match outcome with
  | none =>
      if !isPaused && !aborted then [Act.rename, Act.emitComplete finalPath]
      else []
  | some m => if aborted then [Act.emitPaused] else [Act.emitError m]

/-- start() (lines 110-187), sequentialized. probe is the outcome of
axios.head, with Except.error a thrown transport error; aborted is the state
of the cancellation signal (pause sets isPaused together with the abort, so
one flag models both on this path). -/
def startTrace (fileName : String) (totalBytes N : Nat) (dl : Nat → Int)
    (probe : Except String ProbeResponse) (net : Nat → Nat → NetOutcome)
    (aborted : Bool) (finalPath : String) : List Act :=
  let mainPhase := fun (fn : String) (T : Nat) =>
    let dp := downloadParallel T N dl net
    [Act.emitStart T fn, Act.mkdirs, Act.save, Act.openTemp] ++ dp.1 ++
      startFinishActs dp.2 aborted aborted finalPath
  if totalBytes = 0 then
    match probe with
    | .error m => Act.headReq :: (if aborted then [] else [Act.emitError m])
    | .ok r =>
        match r.contentLength with
        | none =>
            Act.headReq ::
              (if aborted then []
               else [Act.emitError "Cannot determine file size."])
        | some T => Act.headReq :: mainPhase (probeFileName fileName r) T
  else mainPhase fileName totalBytes

/-- Constructor line 71: this.downloadedBytesPerChunk =
options.downloadedBytesPerChunk || new Array(this.numConnections).fill(0).
A supplied array is stored as-is: every array, the empty one included, is
truthy in JS, and no length or sign check is performed. -/
def initChunks (opt : Option (List Int)) (n : Nat) : List Int :=
  match opt with
  | some l => l
  | none => List.replicate n 0

/-- The fields of the persisted resume record that saveState (lines 189-202)
copies verbatim from the instance. -/
structure DownloadState where
  totalBytes : Nat
  downloadedBytesPerChunk : List Int
  numConnections : Nat
deriving DecidableEq

def saveStateRecord (chunks : List Int) (n T : Nat) : DownloadState :=
  ⟨T, chunks, n⟩

/-- Origin oracle for the C1 scenario: the first attempt delivers 4 bytes and
then fails; the second attempt delivers all 10 bytes of the segment. -/
def netC1 : Nat → NetOutcome := fun a =>
  if a = 1 then ⟨4, some "socket hang up"⟩ else ⟨10, none⟩

/-- Origin oracle that fails every attempt without delivering a byte. -/
def netFail : Nat → NetOutcome := fun _ => ⟨0, some "read ECONNRESET"⟩

/-- Per-segment origin oracle that fails every attempt (used where the
download phase is never reached). -/
def netNone : Nat → Nat → NetOutcome := fun _ _ => ⟨0, some "unused"⟩

/-- A 102-character name whose extension alone is 101 characters long. -/
def longName : List Char := 'b' :: '.' :: List.replicate 100 'a'

/-- One admissible interleaving of a pause with an escalated worker failure:
pause() runs (emitting paused) while the controller is awaiting the handle
close after a worker threw, so the catch then sees the aborted signal and
emits paused again. -/
def pauseRaceTrace : List Act :=
  pauseActs ++ startFinishActs (some "socket hang up") true true "file"

/-! ## Helper lemmas on the sanitizer -/

lemma replChar_allowed (c : Char) : isAllowedChar (replChar c) = true := by
  unfold replChar
  by_cases h : isAllowedChar c = true
  · rw [if_pos h]; exact h
  · rw [if_neg h]; decide

lemma mem_map_allowed {l : List Char} {c : Char} (h : c ∈ l.map replChar) :
    isAllowedChar c = true := by
  rcases List.mem_map.mp h with ⟨x, _, rfl⟩
  exact replChar_allowed x

lemma lastDotSuffix_suffix :
    ∀ {l s : List Char}, lastDotSuffix l = some s → ∃ t, l = t ++ s := by
  intro l
  induction l with
  | nil => intro s h; simp [lastDotSuffix] at h
  | cons c rest ih =>
      intro s h
      unfold lastDotSuffix at h
      cases hr : lastDotSuffix rest with
      | some s2 =>
          rw [hr] at h
          obtain rfl : s2 = s := by simpa using h
          obtain ⟨t, ht⟩ := ih hr
          exact ⟨c :: t, by simp [ht]⟩
      | none =>
          rw [hr] at h
          by_cases hc : c = '.'
          · simp only [hc, if_true] at h
            obtain rfl : '.' :: rest = s := by simpa [hc] using h
            exact ⟨[], by simp [hc]⟩
          · simp [hc] at h

lemma extname_suffix (l : List Char) : ∃ t, l = t ++ extname l := by
  cases h : lastDotSuffix l with
  | none =>
      have he : extname l = [] := by simp [extname, h]
      exact ⟨l, by simp [he]⟩
  | some s =>
      by_cases h1 : s.length = l.length
      · have he : extname l = [] := by simp [extname, h, h1]
        exact ⟨l, by simp [he]⟩
      · by_cases h2 : l = ['.', '.']
        · subst h2
          exact ⟨['.', '.'], by decide⟩
        · have he : extname l = s := by simp [extname, h, h1, h2]
          rw [he]
          exact lastDotSuffix_suffix h

lemma extname_length_le (l : List Char) : (extname l).length ≤ l.length := by
  obtain ⟨t, ht⟩ := extname_suffix l
  conv_rhs => rw [ht]
  rw [List.length_append]
  omega

lemma extname_subset {c : Char} {l : List Char} (h : c ∈ extname l) : c ∈ l := by
  obtain ⟨t, ht⟩ := extname_suffix l
  rw [ht]
  exact List.mem_append_right t h

lemma sanitizeChars_allowed {l : List Char} {c : Char} (h : c ∈ sanitizeChars l) :
    isAllowedChar c = true := by
  unfold sanitizeChars at h
  by_cases h100 : 100 < (l.map replChar).length
  · simp only [h100, if_true] at h
    rcases List.mem_append.mp h with h1 | h2
    · have hb : c ∈ basenameExt (l.map replChar) := List.take_subset _ _ h1
      have hr : c ∈ l.map replChar := List.take_subset _ _ hb
      exact mem_map_allowed hr
    · exact mem_map_allowed (extname_subset h2)
  · simp only [h100, if_false] at h
    exact mem_map_allowed h

lemma sanitizeChars_length (l : List Char) :
    (sanitizeChars l).length ≤ max 100 (extname (l.map replChar)).length := by
  unfold sanitizeChars
  by_cases h100 : 100 < (l.map replChar).length
  · simp only [h100, if_true]
    have hext := extname_length_le (l.map replChar)
    simp only [List.length_append, List.length_take, basenameExt]
    omega
  · simp only [h100, if_false]
    omega

lemma sanitizeChars_truncation (l : List Char)
    (h : 100 < (l.map replChar).length) :
    ∃ p, sanitizeChars l = p ++ extname (l.map replChar) := by
  unfold sanitizeChars
  simp only [h, if_true]
  exact ⟨_, rfl⟩

lemma sanitizeChars_ne_nil {l : List Char} (h : l ≠ []) : sanitizeChars l ≠ [] := by
  have hlen : (l.map replChar).length = l.length := List.length_map l replChar
  have hpos : 0 < l.length := List.length_pos.mpr h
  unfold sanitizeChars
  by_cases h100 : 100 < (l.map replChar).length
  · simp only [h100, if_true]
    intro hcontra
    have hlc := congrArg List.length hcontra
    have hext := extname_length_le (l.map replChar)
    simp only [List.length_append, List.length_take, List.length_nil,
      basenameExt] at hlc
    omega
  · simp only [h100, if_false]
    intro hcontra
    have := congrArg List.length hcontra
    simp only [hlen, List.length_nil] at this
    omega

/-! ## C9: sanitizeFileName -/

/-- C9 counterexample: the claim bounds the output of sanitizeFileName by 100
characters for every input; on the 102-character name b.aaa...a whose
extension is itself 101 characters long, the truncation branch keeps the whole
extension and returns 101 characters. -/
theorem sanitize_length_counterexample :
    100 < (sanitizeChars longName).length := by decide

/-- C9 (amended): sanitizeFileName replaces every character outside
[A-Za-z0-9._-] by an underscore (so the output only has characters of that
class), its output length is at most 100 unless the extension of the replaced
name is itself longer than 100 characters (in which case the output is exactly
that extension), and when truncation occurs the final extension is kept as a
suffix. -/
theorem sanitize_amended (l : List Char) :
    (∀ c ∈ sanitizeChars l, isAllowedChar c = true) ∧
    (sanitizeChars l).length ≤ max 100 (extname (l.map replChar)).length ∧
    (100 < (l.map replChar).length →
      ∃ p, sanitizeChars l = p ++ extname (l.map replChar)) :=
  ⟨fun _ h => sanitizeChars_allowed h, sanitizeChars_length l,
    sanitizeChars_truncation l⟩

/-- Witness for the amended C9 at the concrete 102-character name. -/
theorem sanitize_amended_witness :
    (∀ c ∈ sanitizeChars longName, isAllowedChar c = true) ∧
    (sanitizeChars longName).length ≤
      max 100 (extname (longName.map replChar)).length ∧
    (∃ p, sanitizeChars longName = p ++ extname (longName.map replChar)) :=
  ⟨(sanitize_amended longName).1, (sanitize_amended longName).2.1,
    (sanitize_amended longName).2.2 (by decide)⟩

/-! ## C10: getFileNameFromUrl is total and safe -/

/-- C10: for every URL parser outcome and every input string,
getFileNameFromUrl returns without throwing a non-empty name made only of
characters in [A-Za-z0-9._-], falling back to the literal downloaded_file;
hence Downloader construction is total in the url argument. -/
theorem url_filename_total (parse : String → Option String) (url : String) :
    getFileNameFromUrl parse url ≠ "" ∧
    (∀ c ∈ (getFileNameFromUrl parse url).data, isAllowedChar c = true) ∧
    (parse url = none → getFileNameFromUrl parse url = "downloaded_file") := by
  unfold getFileNameFromUrl
  cases hp : parse url with
  | none => exact ⟨by decide, by decide, fun _ => rfl⟩
  | some pathname =>
      refine ⟨?_, ?_, by simp⟩
      · have hne :
            (if basenameList pathname.data = [] ∨ basenameList pathname.data = ['/']
             then "downloaded_file".data else basenameList pathname.data) ≠ [] := by
          by_cases hb : basenameList pathname.data = [] ∨ basenameList pathname.data = ['/']
          · simp only [hb, if_true]; decide
          · simp only [hb, if_false]
            rw [not_or] at hb
            exact hb.1
        intro hcontra
        have hdata : sanitizeChars _ = ([] : List Char) := congrArg String.data hcontra
        exact sanitizeChars_ne_nil hne hdata
      · intro c hc
        exact sanitizeChars_allowed hc

/-! ## C5: file-name priority -/

/-- C5 counterexample: with a caller-supplied name, a probe that runs and a
Content-Disposition filename match, the name used is the server one, not the
caller one. -/
theorem filename_priority_counterexample :
    probeFileName (ctorFileName (some "caller.bin") "urlname")
        ⟨some "server.pdf", some 10⟩ ≠ "caller.bin" ∧
    probeFileName (ctorFileName (some "caller.bin") "urlname")
        ⟨some "server.pdf", some 10⟩ = "server.pdf" := by
  constructor
  · decide
  · decide

/-- C5 (amended): when the probe runs, a matched Content-Disposition filename
(sanitized) takes priority over everything, the caller-supplied name is used
when no such match exists, and the URL-derived name is used when the caller
supplied none; so the priority order is server header, then caller, then URL,
then the literal fallback. -/
theorem filename_priority_amended (opt : Option String) (u m s : String)
    (cl : Option Nat) (hs : s ≠ "") :
    probeFileName (ctorFileName opt u) ⟨some m, cl⟩ = sanitizeFileName m ∧
    probeFileName (ctorFileName (some s) u) ⟨none, cl⟩ = s ∧
    probeFileName (ctorFileName none u) ⟨none, cl⟩ = u := by
  refine ⟨rfl, ?_, rfl⟩
  simp [probeFileName, ctorFileName, hs]

/-- Witness for the amended C5 at concrete names (the Content-Disposition
example of the specification). -/
theorem filename_priority_amended_witness :
    probeFileName (ctorFileName (some "caller.bin") "urlname")
        ⟨some "report final.pdf", some 10⟩ = sanitizeFileName "report final.pdf" ∧
    probeFileName (ctorFileName (some "caller.bin") "urlname")
        ⟨none, some 10⟩ = "caller.bin" ∧
    probeFileName (ctorFileName none "urlname") ⟨none, some 10⟩ = "urlname" :=
  filename_priority_amended (some "caller.bin") "urlname" "report final.pdf"
    "caller.bin" (some 10) (by decide)

/-! ## Helper lemmas on the planner -/

lemma segStart_nonneg (T N i : Nat) : 0 ≤ segStart T N i := by
  unfold segStart
  positivity

lemma chunk_cast_nonneg (T N : Nat) : (0 : Int) ≤ (chunkSize T N : Int) := by
  positivity

lemma Nmul_chunk_le (T N : Nat) : (N : Int) * (chunkSize T N : Int) ≤ (T : Int) := by
  have h : chunkSize T N * N ≤ T := Nat.div_mul_le_self T N
  calc (N : Int) * (chunkSize T N : Int)
      = ((chunkSize T N * N : Nat) : Int) := by push_cast; ring
  _ ≤ (T : Int) := by exact_mod_cast h

lemma segEnd_le_T (T N i : Nat) (hi : i < N) : segEnd T N i ≤ (T : Int) - 1 := by
  unfold segEnd
  by_cases hlast : i = N - 1
  · rw [if_pos hlast]
  · rw [if_neg hlast]
    unfold segStart
    have h1 : ((i : Int) + 1) ≤ (N : Int) := by exact_mod_cast hi
    have h2 : ((i : Int) + 1) * (chunkSize T N : Int) ≤ (N : Int) * (chunkSize T N : Int) :=
      mul_le_mul_of_nonneg_right h1 (chunk_cast_nonneg T N)
    have h3 := Nmul_chunk_le T N
    have h4 : ((i : Int) + 1) * (chunkSize T N : Int) =
        (i : Int) * (chunkSize T N : Int) + (chunkSize T N : Int) := by ring
    linarith

lemma seg_ordered (T N i j : Nat) (hij : i < j) (hj : j < N) :
    segEnd T N i < segStart T N j := by
  have hi : i ≠ N - 1 := by omega
  unfold segEnd segStart
  rw [if_neg hi]
  have h1 : ((i : Int) + 1) ≤ (j : Int) := by exact_mod_cast hij
  have h2 : ((i : Int) + 1) * (chunkSize T N : Int) ≤ (j : Int) * (chunkSize T N : Int) :=
    mul_le_mul_of_nonneg_right h1 (chunk_cast_nonneg T N)
  have h3 : ((i : Int) + 1) * (chunkSize T N : Int) =
      (i : Int) * (chunkSize T N : Int) + (chunkSize T N : Int) := by ring
  linarith

lemma coverage_bounds (T N i : Nat) (hd : dispatched T N i) (b : Int)
    (h1 : segStart T N i ≤ b) (h2 : b ≤ segEnd T N i) :
    0 ≤ b ∧ b < (T : Int) := by
  constructor
  · exact le_trans (segStart_nonneg T N i) h1
  · have := segEnd_le_T T N i hd.1
    linarith

lemma coverage_exists (T N : Nat) (hN : 1 ≤ N) (b : Int) (hb0 : 0 ≤ b)
    (hbT : b < (T : Int)) :
    ∃ i, dispatched T N i ∧ segStart T N i ≤ b ∧ b ≤ segEnd T N i := by
  have hT : 1 ≤ T := by
    by_contra hcon
    have hT0 : T = 0 := by omega
    rw [hT0] at hbT
    simp at hbT
    omega
  by_cases hc : chunkSize T N = 0
  · refine ⟨N - 1, ⟨by omega, ?_⟩, ?_, ?_⟩
    · have hs : segStart T N (N - 1) = 0 := by simp [segStart, hc]
      have he : segEnd T N (N - 1) = (T : Int) - 1 := by simp [segEnd]
      rw [hs, he]
      omega
    · have hs : segStart T N (N - 1) = 0 := by simp [segStart, hc]
      rw [hs]; exact hb0
    · have he : segEnd T N (N - 1) = (T : Int) - 1 := by simp [segEnd]
      rw [he]; omega
  · have hc1 : 1 ≤ chunkSize T N := Nat.one_le_iff_ne_zero.mpr hc
    have hbn : ((b.toNat : Nat) : Int) = b := Int.toNat_of_nonneg hb0
    by_cases hq : b.toNat / chunkSize T N < N - 1
    · refine ⟨b.toNat / chunkSize T N, ⟨by omega, ?_⟩, ?_, ?_⟩
      · have hne : b.toNat / chunkSize T N ≠ N - 1 := by omega
        have hs : segStart T N (b.toNat / chunkSize T N) ≤
            segEnd T N (b.toNat / chunkSize T N) := by
          unfold segEnd
          rw [if_neg hne]
          have := chunk_cast_nonneg T N
          have hcc : (1 : Int) ≤ (chunkSize T N : Int) := by exact_mod_cast hc1
          linarith
        exact hs
      · have h1 : b.toNat / chunkSize T N * chunkSize T N ≤ b.toNat :=
          Nat.div_mul_le_self _ _
        unfold segStart
        calc ((b.toNat / chunkSize T N : Nat) : Int) * (chunkSize T N : Int)
            = ((b.toNat / chunkSize T N * chunkSize T N : Nat) : Int) := by
              push_cast; ring
        _ ≤ ((b.toNat : Nat) : Int) := by exact_mod_cast h1
        _ = b := hbn
      · have h2 : b.toNat < b.toNat / chunkSize T N * chunkSize T N + chunkSize T N := by
          have hdm := Nat.div_add_mod b.toNat (chunkSize T N)
          have hm : b.toNat % chunkSize T N < chunkSize T N :=
            Nat.mod_lt _ (by omega)
          have hcomm : chunkSize T N * (b.toNat / chunkSize T N) =
              b.toNat / chunkSize T N * chunkSize T N := Nat.mul_comm _ _
          omega
        have hne : b.toNat / chunkSize T N ≠ N - 1 := by omega
        unfold segEnd segStart
        rw [if_neg hne]
        have h2i : ((b.toNat : Nat) : Int) <
            ((b.toNat / chunkSize T N : Nat) : Int) * (chunkSize T N : Int) +
              (chunkSize T N : Int) := by exact_mod_cast h2
        rw [hbn] at h2i
        linarith
    · have hge : N - 1 ≤ b.toNat / chunkSize T N := by omega
      have hsb : segStart T N (N - 1) ≤ b := by
        have h1 : (N - 1) * chunkSize T N ≤ b.toNat / chunkSize T N * chunkSize T N :=
          mul_le_mul_right' hge (chunkSize T N)
        have h2 : b.toNat / chunkSize T N * chunkSize T N ≤ b.toNat :=
          Nat.div_mul_le_self _ _
        have h3 : ((N - 1) * chunkSize T N : Nat) ≤ b.toNat := le_trans h1 h2
        unfold segStart
        calc ((N - 1 : Nat) : Int) * (chunkSize T N : Int)
            = (((N - 1) * chunkSize T N : Nat) : Int) := by push_cast; ring
        _ ≤ ((b.toNat : Nat) : Int) := by exact_mod_cast h3
        _ = b := hbn
      have heb : b ≤ segEnd T N (N - 1) := by
        have he : segEnd T N (N - 1) = (T : Int) - 1 := by simp [segEnd]
        rw [he]; omega
      exact ⟨N - 1, ⟨by omega, le_trans hsb heb⟩, hsb, heb⟩

/-! ## C3: the fresh-start plan partitions the file -/

/-- C3: for every total size T and connection count N >= 1, the segments
dispatched on a fresh start (downloaded = 0) are pairwise disjoint and their
union is exactly the byte interval [0, T). -/
theorem planner_partition (T N : Nat) (hN : 1 ≤ N) :
    (∀ i j, dispatched T N i → dispatched T N j → i ≠ j →
        ∀ b : Int, ¬(segStart T N i ≤ b ∧ b ≤ segEnd T N i ∧
            segStart T N j ≤ b ∧ b ≤ segEnd T N j)) ∧
    (∀ b : Int, (0 ≤ b ∧ b < (T : Int)) ↔
        ∃ i, dispatched T N i ∧ segStart T N i ≤ b ∧ b ≤ segEnd T N i) := by
  constructor
  · rintro i j hi hj hne b ⟨h1, h2, h3, h4⟩
    rcases Nat.lt_or_ge i j with hlt | hge
    · have := seg_ordered T N i j hlt hj.1
      linarith
    · have hji : j < i := by omega
      have := seg_ordered T N j i hji hi.1
      linarith
  · intro b
    constructor
    · rintro ⟨hb0, hbT⟩
      exact coverage_exists T N hN b hb0 hbT
    · rintro ⟨i, hd, h1, h2⟩
      exact coverage_bounds T N i hd b h1 h2

/-- Witness for C3 at T = 5, N = 3 (segments [0,0], [1,1], [2,4]). -/
theorem planner_partition_witness :
    1 ≤ 3 ∧
    ((∀ i j, dispatched 5 3 i → dispatched 5 3 j → i ≠ j →
        ∀ b : Int, ¬(segStart 5 3 i ≤ b ∧ b ≤ segEnd 5 3 i ∧
            segStart 5 3 j ≤ b ∧ b ≤ segEnd 5 3 j)) ∧
     (∀ b : Int, (0 ≤ b ∧ b < ((5 : Nat) : Int)) ↔
        ∃ i, dispatched 5 3 i ∧ segStart 5 3 i ≤ b ∧ b ≤ segEnd 5 3 i)) :=
  ⟨by decide, planner_partition 5 3 (by decide)⟩

/-! ## C4: files smaller than the connection count -/

/-- C4 counterexample: for T = 2, N = 3 the claim demands that the first two
segments are dispatched with one byte each and the rest skipped; the code
computes chunkSize = 0, skips segments 0 and 1, and dispatches only the last
segment, which has size 2. -/
theorem tiny_file_counterexample :
    (2 < 3 ∧ 0 < 2) ∧ ¬ dispatched 2 3 0 ∧ ¬ dispatched 2 3 1 ∧
    dispatched 2 3 2 ∧ segEnd 2 3 2 - segStart 2 3 2 + 1 = 2 := by
  refine ⟨⟨by decide, by decide⟩, by decide, by decide, by decide, by decide⟩

/-- C4 (amended): for every N > T > 0, chunkSize is 0 so every segment starts
at byte 0; the leading N - 1 segments have end -1 and are skipped, and only
the last segment is dispatched, alone covering [0, T). -/
theorem tiny_file_amended (T N : Nat) (h1 : T < N) (h2 : 0 < T) :
    (∀ i, dispatched T N i ↔ i = N - 1) ∧
    segStart T N (N - 1) = 0 ∧ segEnd T N (N - 1) = (T : Int) - 1 := by
  have hc : chunkSize T N = 0 := Nat.div_eq_of_lt h1
  have hs0 : ∀ i, segStart T N i = 0 := by
    intro i; simp [segStart, hc]
  have hN2 : 2 ≤ N := by omega
  refine ⟨?_, hs0 _, by simp [segEnd]⟩
  intro i
  constructor
  · rintro ⟨hiN, hle⟩
    by_contra hne
    have he : segEnd T N i = -1 := by
      unfold segEnd
      rw [if_neg hne]
      rw [hs0 i]
      simp [hc]
    rw [hs0 i, he] at hle
    omega
  · rintro rfl
    refine ⟨by omega, ?_⟩
    rw [hs0]
    have he : segEnd T N (N - 1) = (T : Int) - 1 := by simp [segEnd]
    rw [he]
    omega

/-- Witness for the amended C4 at T = 2, N = 3. -/
theorem tiny_file_amended_witness :
    (∀ i, dispatched 2 3 i ↔ i = 3 - 1) ∧
    segStart 2 3 (3 - 1) = 0 ∧ segEnd 2 3 (3 - 1) = ((2 : Nat) : Int) - 1 :=
  tiny_file_amended 2 3 (by decide) (by decide)

/-! ## Helper lemmas on the retry supervisor -/

lemma reqCount_cons_range (s e : Int) (rest : List Act) :
    reqCount (Act.rangeReq s e :: rest) = reqCount rest + 1 := rfl

lemma reqCount_cons_sleep (a : Nat) (rest : List Act) :
    reqCount (Act.sleep a :: rest) = reqCount rest := rfl

lemma retryGo_reqCount (net : Nat → NetOutcome) (s e : Int) :
    ∀ fuel a (d : Int), reqCount (retryGo net s e d a fuel).1 ≤ fuel := by
  intro fuel
  induction fuel with
  | zero => intro a d; simp [retryGo, reqCount]
  | succ fuel ih =>
      intro a d
      unfold retryGo
      cases hne : (net a).err with
      | none =>
          simp only [hne]
          simp [reqCount_cons_range, reqCount]
      | some m =>
          simp only [hne]
          by_cases ha : a ≤ maxRetries
          · simp only [ha, if_true]
            rw [reqCount_cons_range, reqCount_cons_sleep]
            have := ih (a + 1) (d + ((net a).bytes : Int))
            omega
          · simp only [ha, if_false]
            rw [reqCount_cons_range]
            have : reqCount ([] : List Act) = 0 := rfl
            omega

lemma retryGo_fail (net : Nat → NetOutcome) (s e : Int) :
    ∀ fuel a (d : Int), (∀ x, x < a + fuel → (net x).err ≠ none) →
      (retryGo net s e d a fuel).2.2 ≠ none := by
  intro fuel
  induction fuel with
  | zero => intro a d _; simp [retryGo]
  | succ fuel ih =>
      intro a d h
      have ha : (net a).err ≠ none := h a (by omega)
      unfold retryGo
      cases hne : (net a).err with
      | none => exact absurd hne ha
      | some m =>
          simp only [hne]
          by_cases hle : a ≤ maxRetries
          · simp only [hle, if_true]
            exact ih (a + 1) _ (fun x hx => h x (by omega))
          · simp [hle]

/-! ## C1: the retried range and the per-segment counter -/

/-- C1 (code bug): on segment [0, 9], attempt 1 delivers 4 bytes and fails;
the supervisor then issues a second request for the ORIGINAL range
bytes=0-9 instead of the resume range bytes=4-9 (the recursion at line 243
passes start unchanged), and after the successful second attempt the
per-segment counter holds 14, exceeding the 10-byte segment size that the
claim states as an upper bound. -/
theorem retry_restarts_from_original_start :
    downloadChunkWithRetry netC1 (segStart 10 1 0) (segEnd 10 1 0) 0 =
      ([Act.rangeReq 0 9, Act.sleep 1, Act.rangeReq 0 9], 14, none) ∧
    segEnd 10 1 0 - segStart 10 1 0 + 1 < 14 := by
  constructor
  · decide
  · decide

/-! ## C2: the retry budget -/

/-- C2 counterexample: against an origin that fails every attempt, a single
start() issues 11 ranged requests for the segment, not at most 10: the guard
attempt <= maxRetries runs after the failed attempt, so attempt 11 still
issues a request before the error propagates. -/
theorem retry_budget_counterexample :
    reqCount (downloadChunkWithRetry netFail 0 9 0).1 = 11 := by decide

/-- C2 (amended): per start() invocation a segment issues at most 11 network
requests (the initial attempt plus up to maxRetries = 10 retries), and when
the first 11 attempts all fail the error propagates to the controller instead
of another request being issued. -/
theorem retry_budget_amended (net : Nat → NetOutcome) (s e d : Int) :
    reqCount (downloadChunkWithRetry net s e d).1 ≤ 11 ∧
    ((∀ x, x < 12 → (net x).err ≠ none) →
      (downloadChunkWithRetry net s e d).2.2 ≠ none) := by
  constructor
  · exact retryGo_reqCount net s e (maxRetries + 1) 1 d
  · intro h
    refine retryGo_fail net s e (maxRetries + 1) 1 d (fun x hx => h x ?_)
    have hm : maxRetries = 10 := rfl
    omega

/-- Witness for the amended C2 against the always-failing origin. -/
theorem retry_budget_amended_witness :
    reqCount (downloadChunkWithRetry netFail 0 9 0).1 ≤ 11 ∧
    (downloadChunkWithRetry netFail 0 9 0).2.2 ≠ none :=
  ⟨(retry_budget_amended netFail 0 9 0).1,
    (retry_budget_amended netFail 0 9 0).2 (by decide)⟩

/-! ## C6: the resume record invariant -/

/-- C6 counterexample: the constructor stores a caller-supplied
downloadedBytesPerChunk without any validation, so the record saved for a
job with 8 connections can hold a single negative entry, violating both the
length equation and the non-negativity bound of the claim. -/
theorem resume_record_counterexample :
    ¬ ((saveStateRecord (initChunks (some [-3]) 8) 8 100).downloadedBytesPerChunk.length =
          (saveStateRecord (initChunks (some [-3]) 8) 8 100).numConnections ∧
        ∀ x ∈ (saveStateRecord (initChunks (some [-3]) 8) 8 100).downloadedBytesPerChunk,
          0 ≤ x) := by
  decide

/-- C6 (amended): when the caller supplies no vector the constructed record
satisfies the invariant (length equals numConnections, every entry zero), but
a caller-supplied vector is stored verbatim, so the invariant can be violated
at construction. -/
theorem resume_record_amended (n T : Nat) :
    ((saveStateRecord (initChunks none n) n T).downloadedBytesPerChunk.length =
        (saveStateRecord (initChunks none n) n T).numConnections) ∧
    (∀ x ∈ (saveStateRecord (initChunks none n) n T).downloadedBytesPerChunk, x = 0) ∧
    (∀ l : List Int, initChunks (some l) n = l) := by
  refine ⟨?_, ?_, fun l => rfl⟩
  · simp [saveStateRecord, initChunks]
  · intro x hx
    simp only [saveStateRecord, initChunks] at hx
    exact List.eq_of_mem_replicate hx

/-! ## C7: the paused events -/

/-- C7 counterexample: pause() itself emits a paused event at the entry point
(line 208), before any worker has returned, and in the interleaving where a
worker error unwinds while the signal is aborted the controller catch emits a
second one (line 175), so the observer sees two paused events for one pause
request. -/
theorem paused_event_counterexample :
    Act.emitPaused ∈ pauseActs ∧ pauseRaceTrace.count Act.emitPaused = 2 := by
  constructor
  · decide
  · decide

/-- C7 (amended): pause() emits paused immediately at the entry point; the
controller emits a further paused only when the download phase throws while
the signal is aborted, so one pause request produces one paused event on the
clean unwind (emitted by pause(), not by the controller) and two when an
error unwinds concurrently; the completion branch is skipped either way. -/
theorem paused_event_amended (m fp : String) :
    pauseActs = [Act.save, Act.emitPaused] ∧
    startFinishActs none true true fp = [] ∧
    startFinishActs (some m) true true fp = [Act.emitPaused] ∧
    (pauseActs ++ startFinishActs none true true fp).count Act.emitPaused = 1 ∧
    (pauseActs ++ startFinishActs (some m) true true fp).count Act.emitPaused = 2 :=
  ⟨rfl, rfl, rfl, rfl, rfl⟩

/-! ## C8: a probe without a size header -/

/-- C8 counterexample: the error message carried by the emitted event is the
literal thrown at line 137, which is Cannot determine file size. with a
capital C and a trailing period; the message quoted by the claim never
appears in the trace. -/
theorem probe_error_message_counterexample :
    Act.emitError "cannot determine file size" ∉
      startTrace "f" 0 8 (fun _ => 0) (Except.ok ⟨none, none⟩) netNone false "out/f" ∧
    Act.emitError "Cannot determine file size." ∈
      startTrace "f" 0 8 (fun _ => 0) (Except.ok ⟨none, none⟩) netNone false "out/f" := by
  constructor
  · decide
  · decide

/-- C8 (amended): when totalBytes is zero and the probe response carries no
content-length, start() performs exactly the head request and then, unless
the job was cancelled, emits an error carrying the message
Cannot determine file size. — with no retry, no temp-file open, no state
write and no ranged request. -/
theorem probe_failure_amended (fileName : String) (N : Nat) (dl : Nat → Int)
    (r : ProbeResponse) (net : Nat → Nat → NetOutcome) (aborted : Bool)
    (fp : String) (h : r.contentLength = none) :
    startTrace fileName 0 N dl (Except.ok r) net aborted fp =
      Act.headReq ::
        (if aborted then [] else [Act.emitError "Cannot determine file size."]) ∧
    Act.openTemp ∉ startTrace fileName 0 N dl (Except.ok r) net aborted fp ∧
    (∀ s e : Int, Act.rangeReq s e ∉
        startTrace fileName 0 N dl (Except.ok r) net aborted fp) ∧
    Act.save ∉ startTrace fileName 0 N dl (Except.ok r) net aborted fp := by
  have hmain : startTrace fileName 0 N dl (Except.ok r) net aborted fp =
      Act.headReq ::
        (if aborted then [] else [Act.emitError "Cannot determine file size."]) := by
    unfold startTrace
    simp [h]
  refine ⟨hmain, ?_, ?_, ?_⟩
  · rw [hmain]; cases aborted <;> simp
  · intro s e; rw [hmain]; cases aborted <;> simp
  · rw [hmain]; cases aborted <;> simp

/-- Witness for the amended C8 at a concrete job. -/
theorem probe_failure_amended_witness :
    startTrace "f" 0 8 (fun _ => 0) (Except.ok ⟨none, none⟩) netNone false "out/f" =
      Act.headReq ::
        (if false then [] else [Act.emitError "Cannot determine file size."]) ∧
    Act.openTemp ∉
      startTrace "f" 0 8 (fun _ => 0) (Except.ok ⟨none, none⟩) netNone false "out/f" ∧
    (∀ s e : Int, Act.rangeReq s e ∉
        startTrace "f" 0 8 (fun _ => 0) (Except.ok ⟨none, none⟩) netNone false "out/f") ∧
    Act.save ∉
      startTrace "f" 0 8 (fun _ => 0) (Except.ok ⟨none, none⟩) netNone false "out/f" :=
  probe_failure_amended "f" 8 (fun _ => 0) ⟨none, none⟩ netNone false "out/f" rfl

/-- Witness for C10 at a string the URL parser rejects. -/
theorem url_filename_total_witness :
    getFileNameFromUrl (fun _ => none) "not a url" ≠ "" ∧
    (∀ c ∈ (getFileNameFromUrl (fun _ => none) "not a url").data,
        isAllowedChar c = true) ∧
    getFileNameFromUrl (fun _ => none) "not a url" = "downloaded_file" :=
  ⟨(url_filename_total (fun _ => none) "not a url").1,
    (url_filename_total (fun _ => none) "not a url").2.1,
    (url_filename_total (fun _ => none) "not a url").2.2 rfl⟩

/-- Witness for the amended C6 at 8 connections. -/
theorem resume_record_amended_witness :
    ((saveStateRecord (initChunks none 8) 8 100).downloadedBytesPerChunk.length =
        (saveStateRecord (initChunks none 8) 8 100).numConnections) ∧
    (∀ x ∈ (saveStateRecord (initChunks none 8) 8 100).downloadedBytesPerChunk,
        x = 0) ∧
    (∀ l : List Int, initChunks (some l) 8 = l) :=
  resume_record_amended 8 100

/-- Witness for the amended C7 at a concrete error message and path. -/
theorem paused_event_amended_witness :
    pauseActs = [Act.save, Act.emitPaused] ∧
    startFinishActs none true true "file" = [] ∧
    startFinishActs (some "socket hang up") true true "file" = [Act.emitPaused] ∧
    (pauseActs ++ startFinishActs none true true "file").count Act.emitPaused = 1 ∧
    (pauseActs ++
        startFinishActs (some "socket hang up") true true "file").count
      Act.emitPaused = 2 :=
  paused_event_amended "socket hang up" "file"

end INDM
